import Mathlib

/-!
Verification of espcpputils, `esputils.h`.

A shallow embedding of the header `src/esputils.h`:

* the reflection functions generated by `DECLARE_TYPESAFE_ENUM`
  (`toString` and `parse##Name`),
* `espcpputils::clamp` and `espcpputils::mapValue`,
* `espcpputils::Signal` (`operator+=` and `operator()`).

Machine integers are mathematical integers together with an explicit
reduction into the range of the C++ type.
-/

/-! ## Integer types of `<cstdint>` -/

/-- The fixed-width integer types of `<cstdint>`; `int` is `int32_t` on the
targets of this library (ESP32). -/
inductive IntType where
  | int8_t | uint8_t | int16_t | uint16_t | int32_t | uint32_t | int64_t | uint64_t
deriving DecidableEq, Repr

namespace IntType

/-- Width of the type in bits. -/
def bits : IntType → Nat
  | int8_t => 8 | uint8_t => 8
  | int16_t => 16 | uint16_t => 16
  | int32_t => 32 | uint32_t => 32
  | int64_t => 64 | uint64_t => 64

/-- Signedness of the type. -/
def isSigned : IntType → Bool
  | int8_t => true | int16_t => true | int32_t => true | int64_t => true
  | uint8_t => false | uint16_t => false | uint32_t => false | uint64_t => false

/-- Smallest representable value. -/
def minValue (t : IntType) : Int :=
  if t.isSigned then -(2 ^ (t.bits - 1)) else 0

/-- Largest representable value. -/
def maxValue (t : IntType) : Int :=
  if t.isSigned then 2 ^ (t.bits - 1) - 1 else 2 ^ t.bits - 1

/-- The value `n` is representable in `t`. -/
def inRange (t : IntType) (n : Int) : Prop :=
  t.minValue ≤ n ∧ n ≤ t.maxValue

instance (t : IntType) (n : Int) : Decidable (t.inRange n) := by
  unfold inRange; infer_instance

/-- Conversion of an integer to `t`: the unique representable value congruent
to `n` modulo `2 ^ bits` (what a cast such as `int(value)` computes). -/
def wrap (t : IntType) (n : Int) : Int :=
  if t.isSigned then (n + 2 ^ (t.bits - 1)) % 2 ^ t.bits - 2 ^ (t.bits - 1)
  else n % 2 ^ t.bits

/-- The C++ type `int`. -/
def int : IntType := int32_t

/-- Integral promotion: operands of a type narrower than `int` are converted
to `int` before `-`, `*`, `/`, `+` are applied. -/
def promote (t : IntType) : IntType :=
  if t.bits < 32 then int else t

end IntType

/-! ## `DECLARE_TYPESAFE_ENUM` -/

namespace TypesafeEnum

/-- One use `DECLARE_TYPESAFE_ENUM(Name, Derivation, Values)` of the generator.

* `Name` is the spelling of the first argument,
* `Derivation` is the underlying integer type (`: uint8_t`, ...),
* `Values` are the symbols that the list `Values(x)` hands to `x`, in order and
  as written there,
* `expand` is the preprocessor context of the declaration: the spelling an
  identifier has after complete replacement of object-like preprocessor
  definitions (the identifier itself when it names none). -/
structure EnumDefinition where
  Name : String
  Derivation : IntType
  Values : List String
  expand : String → String

/-- Character allowed in a C++ identifier. -/
def isIdentChar (c : Char) : Bool :=
  c.isAlphanum || c == Char.ofNat 95

/-- The text is a C++ identifier. -/
def isIdentifier (s : String) : Bool :=
  match s.data with
  | [] => false
  | c :: cs => !c.isDigit && isIdentChar c && cs.all isIdentChar

/-- `DECLARE_TYPESAFE_ENUM_HELPER1(name)` is `name,`: the parameter is not an
operand of `#`, so the enumerator that is declared is the replaced spelling.
The enumerators of `enum class Name` in declaration order. -/
def enumerators (d : EnumDefinition) : List String :=
  d.Values.map d.expand

/-- Value of `TheEnum::ident`. No enumerator has an initializer, so the
enumerators are numbered `0, 1, 2, ...` in declaration order. -/
def enumeratorValue (d : EnumDefinition) (ident : String) : Int :=
  ((enumerators d).indexOf ident : Nat)

/-- Value that `Name::s` denotes for a symbol `s` of the list. -/
def valueOf (d : EnumDefinition) (s : String) : Int :=
  enumeratorValue d (d.expand s)

/-- The declaration compiles: every symbol and every enumerator is an
identifier, no enumerator is declared twice, and the enumerator values fit the
underlying type. -/
def WellFormed (d : EnumDefinition) : Prop :=
  (∀ s ∈ d.Values, isIdentifier s = true ∧ isIdentifier (d.expand s) = true) ∧
  (enumerators d).Nodup ∧
  (d.Values.length : Int) ≤ d.Derivation.maxValue + 1

instance (d : EnumDefinition) : Decidable (WellFormed d) := by
  unfold WellFormed; infer_instance

/-- Modelled from the spec: the text type `T` of `toString` is not declared in
this header; `T + int` appends the decimal representation of the integer (the
spec: "the decimal representation of the enum's underlying integer value"). -/
def plusInt (text : String) (n : Int) : String :=
  text ++ Int.repr n

/-- Modelled from the spec: `T + char` appends the character (the spec: the
fallback text ends with the closing parenthesis). -/
def plusChar (text : String) (c : Char) : String :=
  text.push c

/-- The `case` labels that `Values(DECLARE_TYPESAFE_ENUM_HELPER2)` produces:
`case TheEnum::name: return #name;`. The label is the value of the replaced
enumerator, the returned text is `#name`, the symbol as written (an operand of
`#` is not replaced). -/
def caseLabels (d : EnumDefinition) : List (Int × String) :=
  d.Values.map fun name => (valueOf d name, name)

/-- Generated `toString(Name value)`: the `switch` over the case labels, then
`return T{"Unknown " #Name "("} + int(value) + ')';`. -/
def toString (d : EnumDefinition) (value : Int) : String :=
  match (caseLabels d).find? fun c => c.1 == value with
  | some c => c.2
  | none =>
    plusChar (plusInt ("Unknown " ++ d.Name ++ "(") (IntType.int.wrap value)) (Char.ofNat 41)

/-- The chain `else if (str == ESP_STRINGIFY(name)) return TheEnum::name;` that
`Values(DECLARE_TYPESAFE_ENUM_HELPER3)` produces, ending in
`return std::nullopt;`. `ESP_STRINGIFY(x)` is `ESP_STRINGIFY2(x)`, so its
argument is replaced before `#x` is applied: the text compared with is the
replaced spelling. -/
def parseChain (d : EnumDefinition) (str : String) : List String → Option Int
  | [] => none
  | name :: rest =>
    if str == d.expand name then some (valueOf d name) else parseChain d str rest

/-- Generated `parse##Name(const T &str)`: `if (false) {}` followed by the
chain over all symbols. -/
def parseName (d : EnumDefinition) (str : String) : Option Int :=
  if false then none else parseChain d str d.Values

/-- The example of the specification: `Color = {Red, Green, Blue}`, no
preprocessor definition in scope. -/
def Color : EnumDefinition :=
  { Name := "Color", Derivation := IntType.uint8_t, Values := ["Red", "Green", "Blue"],
    expand := fun s => s }

end TypesafeEnum

/-! ## `namespace espcpputils` -/

namespace espcpputils

/-- Source `clamp(v, lo, hi)`: `return (v < lo) ? lo : (hi < v) ? hi : v;`. -/
def clamp {T : Type} [LT T] [DecidableRel (fun a b : T => a < b)] (v lo hi : T) : T :=
  if v < lo then lo else if hi < v then hi else v

/-- The ways an evaluation of integer arithmetic ends without a value. -/
inductive Fault where
  | divisionByZero
  | signedOverflow
deriving DecidableEq, Repr

deriving instance DecidableEq for Except

/-- Result of one arithmetic operation whose mathematical value is `n`, in the
(promoted) type `t`: unsigned arithmetic is modulo `2 ^ bits`; a signed result
that is not representable has no defined value. -/
def arith (t : IntType) (n : Int) : Except Fault Int :=
  if t.isSigned then
    if t.inRange n then Except.ok n else Except.error Fault.signedOverflow
  else Except.ok (t.wrap n)

/-- Source `mapValue(x, in_min, in_max, out_min, out_max)` instantiated with the
integer type `T`:
`return (x - in_min) * (out_max - out_min) / (in_max - in_min) + out_min;`.
The operators act on the promoted type, `/` truncates towards zero and has no
value for a zero divisor, and the result is converted back to `T`. -/
def mapValue (T : IntType) (x in_min in_max out_min out_max : Int) : Except Fault Int := do
  let a ← arith T.promote (x - in_min)
  let b ← arith T.promote (out_max - out_min)
  let m ← arith T.promote (a * b)
  let d ← arith T.promote (in_max - in_min)
  if d = 0 then throw Fault.divisionByZero
  let q ← arith T.promote (Int.tdiv m d)
  let r ← arith T.promote (q + out_min)
  pure (T.wrap r)

/-- The same expression over the mathematical integers: truncating division,
no overflow; no value for a zero divisor. -/
def mapValueZ (x in_min in_max out_min out_max : Int) : Option Int :=
  if in_max - in_min = 0 then none
  else some (Int.tdiv ((x - in_min) * (out_max - out_min)) (in_max - in_min) + out_min)

/-- Every operation of the expression of `mapValue`, evaluated for `T`, has a
representable result: nothing overflows or wraps in the promoted type, and the
result fits `T`. -/
def NoOverflow (T : IntType) (x in_min in_max out_min out_max : Int) : Prop :=
  T.promote.inRange (x - in_min) ∧
  T.promote.inRange (out_max - out_min) ∧
  T.promote.inRange ((x - in_min) * (out_max - out_min)) ∧
  T.promote.inRange (in_max - in_min) ∧
  T.promote.inRange (Int.tdiv ((x - in_min) * (out_max - out_min)) (in_max - in_min)) ∧
  T.promote.inRange
    (Int.tdiv ((x - in_min) * (out_max - out_min)) (in_max - in_min) + out_min) ∧
  T.inRange (Int.tdiv ((x - in_min) * (out_max - out_min)) (in_max - in_min) + out_min)

instance (T : IntType) (x in_min in_max out_min out_max : Int) :
    Decidable (NoOverflow T x in_min in_max out_min out_max) := by
  unfold NoOverflow; infer_instance

/-- A `Slot` is a `std::function<void(T...)>`. Calling it with an argument in a
state of the program either returns or raises a failure; both leave a new
state. `α` is the argument value, `σ` the program state the slots act on, `ε`
the failures. -/
abbrev Slot (α σ ε : Type) : Type := α → σ → σ × Option ε

/-- Source `class Signal`: the private member `std::vector<Slot> m_slots`. -/
structure Signal (α σ ε : Type) where
  m_slots : List (Slot α σ ε)

/-- Source `Signal &operator+=(Slot &&slot)`:
`m_slots.emplace_back(std::move(slot)); return *this;`. -/
def Signal.plusAssignMove {α σ ε : Type} (self : Signal α σ ε) (slot : Slot α σ ε) :
    Signal α σ ε :=
  { m_slots := self.m_slots ++ [slot] }

/-- Source `Signal &operator+=(const Slot &slot)`:
`m_slots.emplace_back(slot); return *this;`. -/
def Signal.plusAssignCopy {α σ ε : Type} (self : Signal α σ ε) (slot : Slot α σ ε) :
    Signal α σ ε :=
  { m_slots := self.m_slots ++ [slot] }

/-- Value category of the argument expression of `operator()`: for an lvalue
`Targs` is deduced as `U&`, for an rvalue as `U`. -/
inductive ValueCategory where
  | lvalue
  | rvalue
deriving DecidableEq, Repr

/-- How the parameter type `T` of `Slot = std::function<void(T)>` takes its
argument. -/
inductive ParamKind where
  | byValue
  | byConstRef
deriving DecidableEq, Repr

/-- The argument type of a signal: how the slot parameter is declared, and the
state that move construction leaves in the object moved from (the identity for
`int` and other trivially copyable types, the null pointer for
`std::shared_ptr`). -/
structure ArgType (α : Type) where
  kind : ParamKind
  movedFrom : α → α

/-- Initialisation of a slot parameter from `std::forward<Targs>(args)`. Returns
the value the slot receives and the state of `args` afterwards. An rvalue
forwarded to a by-value parameter is move constructed from; in every other case
the parameter is a copy or a reference and `args` keeps its value. -/
def forwardArg {α : Type} (T : ArgType α) (cat : ValueCategory) (args : α) : α × α :=
  match T.kind, cat with
  | ParamKind.byValue, ValueCategory.rvalue => (args, T.movedFrom args)
  | _, _ => (args, args)

/-- What one call of `operator()` did: the program state it left, the calls it
made (index of the slot in `m_slots` and the argument value the slot received),
the final state of the caller's argument object, and the failure that left the
loop, if any. -/
structure Dispatch (α σ ε : Type) where
  world : σ
  calls : List (Nat × α)
  args : α
  thrown : Option ε

/-- The loop `for (const auto &slot : m_slots) slot(std::forward<Targs>(args)...);`
over the remaining slots, the next of which has index `i`. A failure raised by a
slot leaves the loop at once. -/
def dispatchFrom {α σ ε : Type} (T : ArgType α) (cat : ValueCategory) :
    List (Slot α σ ε) → Nat → α → σ → Dispatch α σ ε
  | [], _, args, w => { world := w, calls := [], args := args, thrown := none }
  | slot :: rest, i, args, w =>
    match slot (forwardArg T cat args).1 w with
    | (w1, some e) =>
      { world := w1, calls := [(i, (forwardArg T cat args).1)],
        args := (forwardArg T cat args).2, thrown := some e }
    | (w1, none) =>
      let r := dispatchFrom T cat rest (i + 1) (forwardArg T cat args).2 w1
      { r with calls := (i, (forwardArg T cat args).1) :: r.calls }

/-- Source `void operator()(Targs && ...args) const`. -/
def Signal.invoke {α σ ε : Type} (self : Signal α σ ε) (T : ArgType α) (cat : ValueCategory)
    (args : α) (w : σ) : Dispatch α σ ε :=
  dispatchFrom T cat self.m_slots 0 args w

/-- The argument type `int`, taken by value. -/
def intArg : ArgType Int :=
  { kind := ParamKind.byValue, movedFrom := fun v => v }

/-- The argument type `std::shared_ptr<int>`, taken by value: a pointer is null
(`none`) or owns an `int`; a pointer that was moved from is null. -/
def sharedPtrArg : ArgType (Option Int) :=
  { kind := ParamKind.byValue, movedFrom := fun _ => none }

/-- A slot that appends its label and the argument it received to a shared
log. -/
def logSlot {α : Type} (label : String) : Slot α (List (String × α)) Unit :=
  fun v log => (log ++ [(label, v)], none)

/-- A slot that fails without touching the log. -/
def failSlot {α : Type} : Slot α (List (String × α)) Unit :=
  fun _ log => (log, some ())

/-- A slot that can reach the signal it is registered with: a callable that
captured a reference to the signal may call `operator+=` on it while it runs.
Besides the new program state and the failure, if any, a call yields the slots
it subscribed to that signal while it ran, in order. -/
inductive ReentrantSlot (α σ ε : Type) where
  | mk (run : α → σ → σ × Option ε × List (ReentrantSlot α σ ε))

/-- Calling the slot. -/
def ReentrantSlot.run {α σ ε : Type} :
    ReentrantSlot α σ ε → α → σ → σ × Option ε × List (ReentrantSlot α σ ε)
  | ReentrantSlot.mk f => f

/-- A slot that never subscribes, as a slot that could. -/
def ReentrantSlot.ofSlot {α σ ε : Type} (slot : Slot α σ ε) : ReentrantSlot α σ ε :=
  ReentrantSlot.mk fun v w => ((slot v w).1, (slot v w).2, [])

/-- How the loop of `operator()` ends: it ran to the end of the range, a failure
raised by a slot left it, or a slot that returned had subscribed to the signal,
which invalidates the iterators of the running loop (from there on the
behaviour of the loop is undefined). -/
inductive LoopEnd (ε : Type) where
  | completed
  | thrown (e : ε)
  | invalidated
deriving DecidableEq, Repr

/-- What one call of `operator()` did when slots can reach the signal: the
registry `m_slots` after the call, the program state, the calls made, the final
state of the caller's argument object, and how the loop ended. -/
structure Reentry (α σ ε : Type) where
  m_slots : List (ReentrantSlot α σ ε)
  world : σ
  calls : List (Nat × α)
  args : α
  ending : LoopEnd ε

/-- The loop `for (const auto &slot : m_slots) slot(std::forward<Targs>(args)...);`
with slots that can reach the signal. The first list is the registry `m_slots`
as it stands, the second the part of the range that is still to be visited, the
next slot having index `i`. The loop itself never writes to the registry; each
`operator+=` a slot performs on the signal appends to it (`emplace_back`). -/
def reentrantFrom {α σ ε : Type} (T : ArgType α) (cat : ValueCategory) :
    List (ReentrantSlot α σ ε) → List (ReentrantSlot α σ ε) → Nat → α → σ → Reentry α σ ε
  | registry, [], _, args, w =>
    { m_slots := registry, world := w, calls := [], args := args, ending := LoopEnd.completed }
  | registry, slot :: rest, i, args, w =>
    match slot.run (forwardArg T cat args).1 w with
    | (w1, some e, subscribed) =>
      { m_slots := registry ++ subscribed, world := w1,
        calls := [(i, (forwardArg T cat args).1)], args := (forwardArg T cat args).2,
        ending := LoopEnd.thrown e }
    | (w1, none, []) =>
      let r := reentrantFrom T cat registry rest (i + 1) (forwardArg T cat args).2 w1
      { r with calls := (i, (forwardArg T cat args).1) :: r.calls }
    | (w1, none, t :: ts) =>
      { m_slots := registry ++ t :: ts, world := w1,
        calls := [(i, (forwardArg T cat args).1)], args := (forwardArg T cat args).2,
        ending := LoopEnd.invalidated }

end espcpputils

/-! ## Lemmas on the generated reflection functions -/

namespace TypesafeEnum

/-- A declaration made while `#define Foo Bar` is in scope, its list being
`x(Foo) x(Baz)`: the enumerators are `Bar` and `Baz`. -/
def Aliased : EnumDefinition :=
  { Name := "E", Derivation := IntType.uint8_t, Values := ["Foo", "Baz"],
    expand := fun s => if s = "Foo" then "Bar" else s }

/-- The enumeration `Color` declared with the underlying type `uint32_t`. -/
def WideColor : EnumDefinition :=
  { Name := "Color", Derivation := IntType.uint32_t, Values := ["Red", "Green", "Blue"],
    expand := fun s => s }

/-- A declaration whose list `Values(x)` is empty:
`enum class Nothing : uint8_t {};`. -/
def NoSymbols : EnumDefinition :=
  { Name := "Nothing", Derivation := IntType.uint8_t, Values := [], expand := fun s => s }

/-- The fallback text with the number `n`. -/
def fallbackText (d : EnumDefinition) (n : Int) : String :=
  "Unknown " ++ d.Name ++ "(" ++ Int.repr n ++ ")"

theorem plusChar_plusInt (text : String) (n : Int) :
    plusChar (plusInt text n) (Char.ofNat 41) = text ++ Int.repr n ++ ")" := by
  apply String.ext
  simp [plusChar, plusInt, String.data_append]

theorem valueOf_inj (d : EnumDefinition) (hd : (enumerators d).Nodup) {a b : String}
    (ha : a ∈ d.Values) (hb : b ∈ d.Values) (h : valueOf d a = valueOf d b) : a = b := by
  unfold valueOf enumeratorValue at h
  have h1 : (enumerators d).indexOf (d.expand a) = (enumerators d).indexOf (d.expand b) := by
    exact_mod_cast h
  have ma : d.expand a ∈ enumerators d := List.mem_map_of_mem _ ha
  have mb : d.expand b ∈ enumerators d := List.mem_map_of_mem _ hb
  have h2 : d.expand a = d.expand b := (List.indexOf_inj ma mb).1 h1
  exact List.inj_on_of_nodup_map hd ha hb h2

theorem find_label (key : String → Int) :
    ∀ (l : List String) (s : String), s ∈ l →
      (∀ a ∈ l, ∀ b ∈ l, key a = key b → a = b) →
      (l.map fun name => (key name, name)).find? (fun c => c.1 == key s) = some (key s, s)
  | [], _, hs, _ => by simp at hs
  | x :: xs, s, hs, hinj => by
    by_cases hx : key x = key s
    · have : x = s := hinj x (by simp) s hs hx
      subst this
      simp [List.find?_cons]
    · have hne : x ≠ s := fun e => hx (by rw [e])
      have hs1 : s ∈ xs := by
        rcases List.mem_cons.1 hs with e | e
        · exact absurd e.symm hne
        · exact e
      have ih := find_label key xs s hs1 (fun a ha b hb => hinj a (List.mem_cons_of_mem _ ha) b
        (List.mem_cons_of_mem _ hb))
      simp only [List.map_cons, List.find?_cons]
      have : ((key x, x).1 == key s) = false := by simpa using hx
      rw [this]
      exact ih

theorem toString_of_mem (d : EnumDefinition) (hd : (enumerators d).Nodup) {s : String}
    (hs : s ∈ d.Values) : toString d (valueOf d s) = s := by
  unfold toString caseLabels
  rw [find_label (valueOf d) d.Values s hs (fun a ha b hb h => valueOf_inj d hd ha hb h)]

theorem toString_of_not_label (d : EnumDefinition) (value : Int)
    (h : ∀ s ∈ d.Values, valueOf d s ≠ value) :
    toString d value = fallbackText d (IntType.int.wrap value) := by
  have hnone : (caseLabels d).find? (fun c => c.1 == value) = none := by
    rw [List.find?_eq_none]
    intro c hc
    unfold caseLabels at hc
    rcases List.mem_map.1 hc with ⟨name, hname, rfl⟩
    simpa using h name hname
  unfold toString
  rw [hnone]
  simp only [plusChar_plusInt, fallbackText]

theorem wrap_int_of_inRange (n : Int) (h : IntType.int.inRange n) : IntType.int.wrap n = n := by
  unfold IntType.inRange IntType.minValue IntType.maxValue at h
  unfold IntType.wrap
  simp only [IntType.int, IntType.isSigned, IntType.bits] at h ⊢
  norm_num at h ⊢
  omega

theorem parseChain_eq (d : EnumDefinition) (str : String) :
    ∀ l : List String, parseChain d str l =
      if str ∈ l.map d.expand then some (enumeratorValue d str) else none
  | [] => by simp [parseChain]
  | x :: xs => by
    by_cases hx : str = d.expand x
    · simp [parseChain, hx, valueOf]
    · have hb : (str == d.expand x) = false := by simpa using hx
      simp [parseChain, hb, hx, parseChain_eq d str xs]

theorem parseName_eq (d : EnumDefinition) (str : String) :
    parseName d str =
      if str ∈ enumerators d then some (enumeratorValue d str) else none := by
  unfold parseName enumerators
  simp [parseChain_eq]

theorem space_mem_fallbackText (d : EnumDefinition) (n : Int) :
    Char.ofNat 32 ∈ (fallbackText d n).data := by
  unfold fallbackText
  simp only [String.data_append, List.append_assoc]
  apply List.mem_append_left
  decide

theorem identChar_of_isIdentifier (s : String) (h : isIdentifier s = true) :
    ∀ c ∈ s.data, isIdentChar c = true := by
  unfold isIdentifier at h
  cases hdata : s.data with
  | nil => simp
  | cons c cs =>
    rw [hdata] at h
    simp only [Bool.and_eq_true, List.all_eq_true] at h
    intro x hx
    rcases List.mem_cons.1 hx with e | e
    · rw [e]; exact h.1.2
    · exact h.2 x e

theorem ne_fallbackText_of_isIdentifier (d : EnumDefinition) (s : String)
    (h : isIdentifier s = true) (n : Int) : s ≠ fallbackText d n := by
  intro e
  have h1 := identChar_of_isIdentifier s h (Char.ofNat 32) (by rw [e]; exact space_mem_fallbackText d n)
  revert h1
  decide

end TypesafeEnum

/-! ## The generated reflection functions: stated properties -/

namespace TypesafeEnum

/-- Round trip when no symbol of the list names a preprocessor definition: for
every well-formed declaration and every declared symbol `s`,
`parse(toString(value_of(s)))` is present and equal to `value_of(s)`. -/
theorem round_trip_of_not_replaced (d : EnumDefinition) (hd : WellFormed d)
    (hid : ∀ s ∈ d.Values, d.expand s = s) (s : String) (hs : s ∈ d.Values) :
    parseName d (toString d (valueOf d s)) = some (valueOf d s) := by
  rw [toString_of_mem d hd.2.1 hs, parseName_eq]
  have hmem : s ∈ enumerators d := by
    have := List.mem_map_of_mem d.expand hs
    rwa [hid s hs] at this
  rw [if_pos hmem]
  unfold valueOf
  rw [hid s hs]

/-- C1, evaluated where it fails: with `#define Foo Bar` in scope and the symbol
list `Foo, Baz` (pairwise distinct, the declaration compiles), `toString` of the
value of `Foo` is the text `Foo`, and `parseE` of that text is absent instead
of the value of `Foo`. -/
theorem C1_round_trip_fails_for_replaced_symbol :
    WellFormed Aliased ∧ Aliased.Values.Nodup ∧ "Foo" ∈ Aliased.Values ∧
      valueOf Aliased "Foo" = 0 ∧
      toString Aliased (valueOf Aliased "Foo") = "Foo" ∧
      parseName Aliased (toString Aliased (valueOf Aliased "Foo")) = none := by
  decide

/-- C3 as stated fails: for the enumeration `Color` over `uint32_t` the value
4294967295 equals no declared value, and `toString` yields `Unknown Color(-1)`,
not the decimal underlying integer. -/
theorem C3_fallback_shows_int_not_underlying :
    IntType.uint32_t.inRange 4294967295 ∧
      (∀ s ∈ WideColor.Values, valueOf WideColor s ≠ 4294967295) ∧
      toString WideColor 4294967295 = "Unknown Color(-1)" ∧
      toString WideColor 4294967295 ≠ "Unknown Color(" ++ Int.repr 4294967295 ++ ")" := by
  decide

/-- C3, amended: for every generated enumeration and every value that equals no
declared symbol's value, `toString(value)` is `Unknown Name(n)` where `n` is the
decimal representation of `int(value)`, the underlying integer converted to
`int`; whenever the underlying integer is representable in `int`, `n` is the
decimal representation of the underlying integer itself. -/
theorem C3_unknown_value_fallback (d : EnumDefinition) (value : Int)
    (h : ∀ s ∈ d.Values, valueOf d s ≠ value) :
    toString d value = "Unknown " ++ d.Name ++ "(" ++ Int.repr (IntType.int.wrap value) ++ ")" ∧
      (IntType.int.inRange value →
        toString d value = "Unknown " ++ d.Name ++ "(" ++ Int.repr value ++ ")") := by
  have h1 := toString_of_not_label d value h
  unfold fallbackText at h1
  refine ⟨h1, fun hr => ?_⟩
  rw [h1, wrap_int_of_inRange value hr]

/-- C3 at the example of the specification: 99 cast to `Color` gives
`Unknown Color(99)`. -/
theorem C3_unknown_value_fallback_witness :
    (∀ s ∈ Color.Values, valueOf Color s ≠ 99) ∧ IntType.int.inRange 99 ∧
      toString Color 99 = "Unknown Color(99)" :=
  ⟨by decide, by decide,
    (C3_unknown_value_fallback Color 99 (by decide)).2 (by decide)⟩

/-- Absent result of `parse`: the text equals the replaced spelling of no
declared symbol exactly when the result is absent. -/
theorem parseName_eq_none_iff (d : EnumDefinition) (str : String) :
    parseName d str = none ↔ ∀ s ∈ d.Values, str ≠ d.expand s := by
  rw [parseName_eq]
  unfold enumerators
  constructor
  · intro h s hs e
    have hmem : str ∈ d.Values.map d.expand := by rw [e]; exact List.mem_map_of_mem _ hs
    rw [if_pos hmem] at h
    exact Option.noConfusion h
  · intro h
    have hmem : str ∉ d.Values.map d.expand := by
      intro hm
      rcases List.mem_map.1 hm with ⟨s, hs, e⟩
      exact h s hs e.symm
    rw [if_neg hmem]

/-- C4, evaluated where it fails: with `#define Foo Bar` in scope and the symbol
list `Foo, Baz`, the text `Bar` equals no declared symbol name, yet `parseE`
returns a present result, the value of `Foo`. -/
theorem C4_parse_present_for_undeclared_text :
    WellFormed Aliased ∧ "Bar" ∉ Aliased.Values ∧
      parseName Aliased "Bar" = some (valueOf Aliased "Foo") := by
  decide

/-- C5, evaluated where it fails: with `#define Foo Bar` in scope and the symbol
list `Foo, Baz`, `Foo` is the first declared symbol and `parseE` of its name is
absent, not the value of `Foo`. -/
theorem C5_parse_of_declared_name_absent :
    WellFormed Aliased ∧ Aliased.Values.head? = some "Foo" ∧
      parseName Aliased "Foo" = none ∧
      parseName Aliased "Foo" ≠ some (valueOf Aliased "Foo") := by
  decide

/-- Parse of a declared name when no symbol names a preprocessor definition:
`parse(name_of(s)) = value_of(s)`. -/
theorem parseName_of_not_replaced (d : EnumDefinition)
    (hid : ∀ s ∈ d.Values, d.expand s = s) (s : String) (hs : s ∈ d.Values) :
    parseName d s = some (valueOf d s) := by
  rw [parseName_eq]
  have hmem : s ∈ enumerators d := by
    have := List.mem_map_of_mem d.expand hs
    rwa [hid s hs] at this
  rw [if_pos hmem]
  unfold valueOf
  rw [hid s hs]

/-- C6: for every generated enumeration (one that compiles) and every declared
symbol `s`, `toString(value_of(s))` is exactly the symbol's name text, and it is
never a fallback text `Unknown Name(n)`. -/
theorem C6_toString_of_declared_value (d : EnumDefinition) (hd : WellFormed d)
    (s : String) (hs : s ∈ d.Values) :
    toString d (valueOf d s) = s ∧
      ∀ n : Int, toString d (valueOf d s) ≠ "Unknown " ++ d.Name ++ "(" ++ Int.repr n ++ ")" := by
  have h1 := toString_of_mem d hd.2.1 hs
  refine ⟨h1, fun n => ?_⟩
  rw [h1]
  exact ne_fallbackText_of_isIdentifier d s (hd.1 s hs).1 n

/-- C6 at the example of the specification: `toString(Green)` is `Green`. -/
theorem C6_toString_of_declared_value_witness :
    WellFormed Color ∧ "Green" ∈ Color.Values ∧ valueOf Color "Green" = 1 ∧
      toString Color 1 = "Green" ∧
      ∀ n : Int, toString Color 1 ≠ "Unknown Color(" ++ Int.repr n ++ ")" :=
  ⟨by decide, by decide, by decide,
    (C6_toString_of_declared_value Color (by decide) "Green" (by decide)).1,
    (C6_toString_of_declared_value Color (by decide) "Green" (by decide)).2⟩

end TypesafeEnum

/-! ## Signal: lemmas on the dispatch loop -/

namespace espcpputils

/-- Forwarding leaves the caller's argument as it was when it is passed as an
lvalue, taken by reference to const, or of a type whose moved-from state is the
value itself. -/
theorem forwardArg_stable {α : Type} (T : ArgType α) (cat : ValueCategory) (v : α)
    (h : T.kind = ParamKind.byConstRef ∨ cat = ValueCategory.lvalue ∨ T.movedFrom v = v) :
    forwardArg T cat v = (v, v) := by
  unfold forwardArg
  cases hk : T.kind <;> cases cat <;> simp_all

/-- The slot always receives the current value of the caller's argument. -/
theorem forwardArg_fst {α : Type} (T : ArgType α) (cat : ValueCategory) (v : α) :
    (forwardArg T cat v).1 = v := by
  unfold forwardArg
  cases T.kind <;> cases cat <;> rfl

theorem dispatchFrom_nil {α σ ε : Type} (T : ArgType α) (cat : ValueCategory) (i : Nat)
    (v : α) (w : σ) :
    dispatchFrom T cat ([] : List (Slot α σ ε)) i v w
      = { world := w, calls := [], args := v, thrown := none } := by
  rw [dispatchFrom]

theorem dispatchFrom_cons_fail {α σ ε : Type} (T : ArgType α) (cat : ValueCategory)
    (slot : Slot α σ ε) (rest : List (Slot α σ ε)) (i : Nat) (v : α) (w w1 : σ) (e : ε)
    (hs : slot (forwardArg T cat v).1 w = (w1, some e)) :
    dispatchFrom T cat (slot :: rest) i v w
      = { world := w1, calls := [(i, (forwardArg T cat v).1)],
          args := (forwardArg T cat v).2, thrown := some e } := by
  rw [dispatchFrom, hs]

theorem dispatchFrom_cons_ok {α σ ε : Type} (T : ArgType α) (cat : ValueCategory)
    (slot : Slot α σ ε) (rest : List (Slot α σ ε)) (i : Nat) (v : α) (w w1 : σ)
    (hs : slot (forwardArg T cat v).1 w = (w1, none)) :
    dispatchFrom T cat (slot :: rest) i v w
      = { world := (dispatchFrom T cat rest (i + 1) (forwardArg T cat v).2 w1).world,
          calls := (i, (forwardArg T cat v).1) ::
            (dispatchFrom T cat rest (i + 1) (forwardArg T cat v).2 w1).calls,
          args := (dispatchFrom T cat rest (i + 1) (forwardArg T cat v).2 w1).args,
          thrown := (dispatchFrom T cat rest (i + 1) (forwardArg T cat v).2 w1).thrown } := by
  rw [dispatchFrom, hs]

/-- The indices of the calls made by the loop are consecutive, starting with the
index of the first remaining slot; a loop that ends without failure has called
every remaining slot. -/
theorem dispatchFrom_indices {α σ ε : Type} (T : ArgType α) (cat : ValueCategory) :
    ∀ (l : List (Slot α σ ε)) (i : Nat) (v : α) (w : σ),
      (dispatchFrom T cat l i v w).calls.map Prod.fst
          = List.range' i (dispatchFrom T cat l i v w).calls.length ∧
        ((dispatchFrom T cat l i v w).thrown = none →
          (dispatchFrom T cat l i v w).calls.length = l.length)
  | [], i, v, w => by simp [dispatchFrom_nil]
  | slot :: rest, i, v, w => by
    have ih := dispatchFrom_indices T cat rest (i + 1) (forwardArg T cat v).2
    rcases hs : slot (forwardArg T cat v).1 w with ⟨w1, _ | e⟩
    · rw [dispatchFrom_cons_ok T cat slot rest i v w w1 hs]
      simp only [List.map_cons, List.length_cons, List.range'_succ]
      exact ⟨by rw [(ih w1).1], fun h => by rw [(ih w1).2 h]⟩
    · rw [dispatchFrom_cons_fail T cat slot rest i v w w1 e hs]
      simp [List.range']

/-- The loop over `pre ++ rest`, when the loop over `pre` ends without failure,
continues with `rest` from the state that `pre` left. -/
theorem dispatchFrom_append {α σ ε : Type} (T : ArgType α) (cat : ValueCategory)
    (rest : List (Slot α σ ε)) :
    ∀ (pre : List (Slot α σ ε)) (i : Nat) (v : α) (w : σ),
      (dispatchFrom T cat pre i v w).thrown = none →
      dispatchFrom T cat (pre ++ rest) i v w =
        { world := (dispatchFrom T cat rest (i + pre.length) (dispatchFrom T cat pre i v w).args
            (dispatchFrom T cat pre i v w).world).world,
          calls := (dispatchFrom T cat pre i v w).calls ++
            (dispatchFrom T cat rest (i + pre.length) (dispatchFrom T cat pre i v w).args
              (dispatchFrom T cat pre i v w).world).calls,
          args := (dispatchFrom T cat rest (i + pre.length) (dispatchFrom T cat pre i v w).args
            (dispatchFrom T cat pre i v w).world).args,
          thrown := (dispatchFrom T cat rest (i + pre.length) (dispatchFrom T cat pre i v w).args
            (dispatchFrom T cat pre i v w).world).thrown }
  | [], i, v, w, _ => by simp [dispatchFrom_nil]
  | slot :: pre, i, v, w, h => by
    rcases hs : slot (forwardArg T cat v).1 w with ⟨w1, _ | e⟩
    · rw [dispatchFrom_cons_ok T cat slot pre i v w w1 hs] at h ⊢
      simp only at h
      have ih := dispatchFrom_append T cat rest pre (i + 1) (forwardArg T cat v).2 w1 h
      have hlen : i + (slot :: pre).length = i + 1 + pre.length := by
        simp only [List.length_cons]; omega
      rw [List.cons_append, dispatchFrom_cons_ok T cat slot (pre ++ rest) i v w w1 hs, ih, hlen]
      simp
    · rw [dispatchFrom_cons_fail T cat slot pre i v w w1 e hs] at h
      simp at h

/-- Broadcast when forwarding leaves the argument as it was: a loop that ends
without failure has called every slot once, in order, each with `v`. -/
theorem dispatchFrom_broadcast {α σ ε : Type} (T : ArgType α) (cat : ValueCategory) (v : α)
    (hv : forwardArg T cat v = (v, v)) :
    ∀ (l : List (Slot α σ ε)) (i : Nat) (w : σ),
      (dispatchFrom T cat l i v w).thrown = none →
      (dispatchFrom T cat l i v w).calls = (List.range l.length).map fun j => (i + j, v)
  | [], i, w, _ => by simp [dispatchFrom_nil]
  | slot :: rest, i, w, h => by
    have hv1 : (forwardArg T cat v).1 = v := by rw [hv]
    have hv2 : (forwardArg T cat v).2 = v := by rw [hv]
    rcases hs : slot (forwardArg T cat v).1 w with ⟨w1, _ | e⟩
    · rw [dispatchFrom_cons_ok T cat slot rest i v w w1 hs] at h ⊢
      simp only at h
      rw [hv2] at h
      simp only [hv1, hv2, List.length_cons, List.range_succ_eq_map, List.map_cons, List.map_map,
        dispatchFrom_broadcast T cat v hv rest (i + 1) w1 h]
      refine congrArg₂ _ rfl (List.map_congr_left fun j _ => ?_)
      simp only [Function.comp, Prod.mk.injEq, and_true]
      omega
    · rw [dispatchFrom_cons_fail T cat slot rest i v w w1 e hs] at h
      simp at h

/-- Broadcast order and count when the argument is passed as an lvalue, taken
by reference to const, or of a type that a move leaves unchanged (such as
`int`): an `operator()` in which no slot fails calls each of the `k` slots once,
in subscription order, each with `v`. -/
theorem invoke_broadcast_of_stable {α σ ε : Type} (self : Signal α σ ε) (T : ArgType α)
    (cat : ValueCategory) (v : α) (w : σ)
    (h : T.kind = ParamKind.byConstRef ∨ cat = ValueCategory.lvalue ∨ T.movedFrom v = v)
    (hok : (self.invoke T cat v w).thrown = none) :
    (self.invoke T cat v w).calls = (List.range self.m_slots.length).map fun j => (j, v) := by
  unfold Signal.invoke at hok ⊢
  rw [dispatchFrom_broadcast T cat v (forwardArg_stable T cat v h) self.m_slots 0 w hok]
  simp

end espcpputils

/-! ## Signal and clamp: stated properties -/

namespace espcpputils

/-- C2, evaluated where it fails: a `Signal<std::shared_ptr<int>>` with the
three logging slots `A`, `B`, `C`, invoked with an rvalue pointer to 5. No slot
fails and each slot is called once in order, but only `A` receives the pointer:
`B` and `C` receive the moved-from (null) pointer. -/
theorem C2_rvalue_argument_reaches_first_slot_only :
    (Signal.invoke { m_slots := [logSlot "A", logSlot "B", logSlot "C"] } sharedPtrArg
        ValueCategory.rvalue (some 5) []).thrown = none ∧
      (Signal.invoke { m_slots := [logSlot "A", logSlot "B", logSlot "C"] } sharedPtrArg
        ValueCategory.rvalue (some 5) []).calls = [(0, some 5), (1, none), (2, none)] ∧
      (Signal.invoke { m_slots := [logSlot "A", logSlot "B", logSlot "C"] } sharedPtrArg
        ValueCategory.rvalue (some 5) []).world = [("A", some 5), ("B", none), ("C", none)] ∧
      (Signal.invoke { m_slots := [logSlot "A", logSlot "B", logSlot "C"] } sharedPtrArg
        ValueCategory.lvalue (some 5) []).world
          = [("A", some 5), ("B", some 5), ("C", some 5)] := by
  decide

/-- C7: fail-fast dispatch. Slots are indexed from 0 here, so the claim's slot
`i` is index `i - 1`. If the slots before index `i` run without a failure and
the slot at index `i` then fails with `e`, leaving the state `w1`, then `e` is
the outcome of `operator()`, the slots at the indices `0, ..., i` have been
called exactly once each, in order, no slot after index `i` has been called, and
the state is the one the failing slot left. -/
theorem C7_fail_fast_dispatch {α σ ε : Type} (self : Signal α σ ε) (T : ArgType α)
    (cat : ValueCategory) (v : α) (w : σ) (i : Nat) (hi : i < self.m_slots.length)
    (w1 : σ) (e : ε)
    (hpre : (Signal.invoke { m_slots := self.m_slots.take i } T cat v w).thrown = none)
    (hfail : self.m_slots[i]
        (forwardArg T cat (Signal.invoke { m_slots := self.m_slots.take i } T cat v w).args).1
        (Signal.invoke { m_slots := self.m_slots.take i } T cat v w).world = (w1, some e)) :
    (self.invoke T cat v w).thrown = some e ∧
      (self.invoke T cat v w).calls.map Prod.fst = List.range (i + 1) ∧
      (∀ j : Nat, ((self.invoke T cat v w).calls.map Prod.fst).count j = if j ≤ i then 1 else 0) ∧
      (self.invoke T cat v w).world = w1 := by
  have hsplit : self.m_slots
      = self.m_slots.take i ++ (self.m_slots[i] :: self.m_slots.drop (i + 1)) := by
    rw [← List.drop_eq_getElem_cons hi, List.take_append_drop]
  have hlen : (self.m_slots.take i).length = i := by
    rw [List.length_take]; omega
  unfold Signal.invoke at hpre hfail
  simp only at hpre hfail
  have hidx := dispatchFrom_indices T cat (self.m_slots.take i) 0 v w
  have hcalls : (self.invoke T cat v w).calls.map Prod.fst = List.range (i + 1) := by
    unfold Signal.invoke
    rw [hsplit, dispatchFrom_append T cat _ (self.m_slots.take i) 0 v w hpre,
      dispatchFrom_cons_fail T cat _ _ _ _ _ w1 e hfail]
    simp only [List.map_append, List.map_cons, List.map_nil]
    rw [hidx.1, hidx.2 hpre, hlen, List.range_succ, List.range_eq_range']
    simp
  refine ⟨?_, hcalls, ?_, ?_⟩
  · unfold Signal.invoke
    rw [hsplit, dispatchFrom_append T cat _ (self.m_slots.take i) 0 v w hpre,
      dispatchFrom_cons_fail T cat _ _ _ _ _ w1 e hfail]
  · intro j
    rw [hcalls]
    by_cases hj : j ≤ i
    · rw [if_pos hj]
      exact List.count_eq_one_of_mem (List.nodup_range _) (List.mem_range.2 (by omega))
    · rw [if_neg hj]
      exact List.count_eq_zero_of_not_mem (fun h => hj (by have := List.mem_range.1 h; omega))
  · unfold Signal.invoke
    rw [hsplit, dispatchFrom_append T cat _ (self.m_slots.take i) 0 v w hpre,
      dispatchFrom_cons_fail T cat _ _ _ _ _ w1 e hfail]

/-- C7 on a signal of three slots whose second slot fails: `A` and the failing
slot have been called, `C` has not, and the failure is the outcome. -/
theorem C7_fail_fast_dispatch_witness :
    (Signal.invoke { m_slots := [logSlot "A", failSlot, logSlot "C"] } intArg
        ValueCategory.rvalue 5 []).thrown = some () ∧
      (Signal.invoke { m_slots := [logSlot "A", failSlot, logSlot "C"] } intArg
        ValueCategory.rvalue 5 []).calls.map Prod.fst = List.range (1 + 1) ∧
      (∀ j : Nat, ((Signal.invoke { m_slots := [logSlot "A", failSlot, logSlot "C"] } intArg
        ValueCategory.rvalue 5 []).calls.map Prod.fst).count j = if j ≤ 1 then 1 else 0) ∧
      (Signal.invoke { m_slots := [logSlot "A", failSlot, logSlot "C"] } intArg
        ValueCategory.rvalue 5 []).world = [("A", 5)] :=
  C7_fail_fast_dispatch { m_slots := [logSlot "A", failSlot, logSlot "C"] } intArg
    ValueCategory.rvalue 5 [] 1 (by decide) [("A", 5)] () (by decide) (by decide)

/-- C8: subscribe is append-only. Either overload of `operator+=` leaves the
registry equal to the old registry followed by the new slot: the length grows by
one, the new slot is last, every earlier position holds the slot it held before,
and the new slot is stored once more even when it is already registered. -/
theorem C8_subscribe_appends {α σ ε : Type} (self : Signal α σ ε) (t : Slot α σ ε) :
    (self.plusAssignMove t).m_slots = self.m_slots ++ [t] ∧
      (self.plusAssignCopy t).m_slots = self.m_slots ++ [t] ∧
      (self.plusAssignCopy t).m_slots.length = self.m_slots.length + 1 ∧
      (self.plusAssignMove t).m_slots.length = self.m_slots.length + 1 ∧
      (self.plusAssignCopy t).m_slots.getLast? = some t ∧
      (self.plusAssignMove t).m_slots.getLast? = some t ∧
      (self.plusAssignCopy t).m_slots.take self.m_slots.length = self.m_slots ∧
      (self.plusAssignMove t).m_slots.take self.m_slots.length = self.m_slots ∧
      (∀ [DecidableEq (Slot α σ ε)],
        (self.plusAssignCopy t).m_slots.count t = self.m_slots.count t + 1 ∧
        (self.plusAssignMove t).m_slots.count t = self.m_slots.count t + 1) := by
  unfold Signal.plusAssignMove Signal.plusAssignCopy
  refine ⟨rfl, rfl, by simp, by simp, by simp, by simp, by simp, by simp, ?_⟩
  intro _
  simp

/-- C9: clamp correctness. For `lo ≤ hi` in a totally ordered type the result
lies in `[lo, hi]`, and it is `v` whenever `v` already lies in `[lo, hi]`. -/
theorem C9_clamp_correct {T : Type} [LinearOrder T] (v lo hi : T) (h : lo ≤ hi) :
    lo ≤ clamp v lo hi ∧ clamp v lo hi ≤ hi ∧ (lo ≤ v → v ≤ hi → clamp v lo hi = v) := by
  unfold clamp
  refine ⟨?_, ?_, ?_⟩
  · split_ifs with h1 h2
    · exact le_refl lo
    · exact h
    · exact not_lt.1 h1
  · split_ifs with h1 h2
    · exact h
    · exact le_refl hi
    · exact not_lt.1 h2
  · intro h1 h2
    rw [if_neg (not_lt.2 h1), if_neg (not_lt.2 h2)]

/-- C9 on the integers: `clamp(5, 0, 3)` is 3, inside `[0, 3]`. -/
theorem C9_clamp_correct_witness :
    (0 : Int) ≤ 3 ∧ (0 : Int) ≤ clamp 5 0 3 ∧ clamp (5 : Int) 0 3 ≤ 3 ∧
      ((0 : Int) ≤ 5 → (5 : Int) ≤ 3 → clamp (5 : Int) 0 3 = 5) :=
  ⟨by decide, C9_clamp_correct (5 : Int) 0 3 (by decide)⟩

end espcpputils

/-! ## mapValue -/

namespace espcpputils

theorem wrap_of_inRange (T : IntType) (n : Int) (h : T.inRange n) : T.wrap n = n := by
  unfold IntType.inRange IntType.minValue IntType.maxValue at h
  unfold IntType.wrap
  cases T <;> simp only [IntType.isSigned, IntType.bits] at h ⊢ <;> norm_num at h ⊢ <;> omega

theorem inRange_promote (T : IntType) (n : Int) (h : T.inRange n) : T.promote.inRange n := by
  unfold IntType.inRange IntType.minValue IntType.maxValue at h ⊢
  unfold IntType.promote
  cases T <;> simp only [IntType.isSigned, IntType.bits, IntType.int] at h ⊢ <;>
    norm_num at h ⊢ <;> omega

theorem arith_of_inRange (t : IntType) (n : Int) (h : t.inRange n) : arith t n = Except.ok n := by
  unfold arith
  cases hs : t.isSigned
  · simp [wrap_of_inRange t n h]
  · simp [h]

/-- The value of `mapValue` once each operation has a value. -/
theorem mapValue_eq_of_steps (T : IntType) (x in_min in_max out_min out_max a b m d q r : Int)
    (ha : arith T.promote (x - in_min) = Except.ok a)
    (hb : arith T.promote (out_max - out_min) = Except.ok b)
    (hm : arith T.promote (a * b) = Except.ok m)
    (hd : arith T.promote (in_max - in_min) = Except.ok d)
    (hd0 : d ≠ 0)
    (hq : arith T.promote (Int.tdiv m d) = Except.ok q)
    (hr : arith T.promote (q + out_min) = Except.ok r) :
    mapValue T x in_min in_max out_min out_max = Except.ok (T.wrap r) := by
  unfold mapValue
  simp only [ha, hb, hm, hd, hq, hr, hd0, bind, Except.bind, if_false, pure, Except.pure]

theorem arith_zero (t : IntType) : arith t 0 = Except.ok 0 :=
  arith_of_inRange t 0 (by cases t <;> decide)

/-- A difference has a value unless it overflows a signed type. -/
theorem arith_defined (t : IntType) (n : Int) (hs : t.isSigned = true → t.inRange n) :
    ∃ b, arith t n = Except.ok b := by
  unfold arith
  cases h : t.isSigned
  · exact ⟨t.wrap n, by simp⟩
  · exact ⟨n, by simp [hs h]⟩

/-- The divisor `in_max - in_min` has a value other than zero for distinct
in-range bounds, unless it overflows a signed type. -/
theorem arith_divisor_ne_zero (T : IntType) (in_min in_max : Int) (h1 : T.inRange in_min)
    (h2 : T.inRange in_max) (hne : in_min ≠ in_max)
    (hs : T.promote.isSigned = true → T.promote.inRange (in_max - in_min)) :
    ∃ d, arith T.promote (in_max - in_min) = Except.ok d ∧ d ≠ 0 := by
  cases hp : T.promote.isSigned
  · refine ⟨T.promote.wrap (in_max - in_min), by simp [arith, hp], ?_⟩
    unfold IntType.inRange IntType.minValue IntType.maxValue at h1 h2
    unfold IntType.wrap
    rw [hp]
    cases T <;> simp only [IntType.promote, IntType.isSigned, IntType.bits, IntType.int] at hp h1 h2 ⊢ <;>
      norm_num at hp h1 h2 ⊢ <;> omega
  · exact ⟨in_max - in_min, arith_of_inRange _ _ (hs hp), fun h => hne (by omega)⟩

/-- C10 as stated fails: in `uint32_t` arithmetic, with `inMin = 0`,
`inMax = 65536`, `outMin = 0`, `outMax = 65536` (all in range, `inMin != inMax`)
the product `65536 * 65536` wraps to 0 and `mapValue(inMax, ...)` is 0, not
`outMax`; in `int32_t` arithmetic the same product overflows and has no defined
value. -/
theorem C10_upper_endpoint_fails_on_overflow :
    IntType.uint32_t.inRange 0 ∧ IntType.uint32_t.inRange 65536 ∧ (0 : Int) ≠ 65536 ∧
      mapValue IntType.uint32_t 65536 0 65536 0 65536 = Except.ok 0 ∧
      mapValue IntType.uint32_t 65536 0 65536 0 65536 ≠ Except.ok 65536 ∧
      mapValue IntType.int32_t 65536 0 65536 0 65536 = Except.error Fault.signedOverflow := by
  decide

/-- C10, amended: for every integer type `T` and in-range arguments with
`inMin != inMax`, (1) `mapValue(inMin, inMin, inMax, outMin, outMax) = outMin`
whenever the differences `inMax - inMin` and `outMax - outMin` do not overflow
a signed (promoted) type, and (2) `mapValue(inMax, inMin, inMax, outMin, outMax)
= outMax` whenever these two differences and their product are representable in
the promoted type, so that no operation overflows or wraps. -/
theorem C10_mapValue_endpoints (T : IntType) (in_min in_max out_min out_max : Int)
    (h1 : T.inRange in_min) (h2 : T.inRange in_max) (h3 : T.inRange out_min)
    (h4 : T.inRange out_max) (hne : in_min ≠ in_max) :
    ((T.promote.isSigned = true →
        T.promote.inRange (in_max - in_min) ∧ T.promote.inRange (out_max - out_min)) →
      mapValue T in_min in_min in_max out_min out_max = Except.ok out_min) ∧
    (T.promote.inRange (in_max - in_min) → T.promote.inRange (out_max - out_min) →
      T.promote.inRange ((in_max - in_min) * (out_max - out_min)) →
      mapValue T in_max in_min in_max out_min out_max = Except.ok out_max) := by
  constructor
  · intro hs
    obtain ⟨b, hb⟩ := arith_defined T.promote (out_max - out_min) (fun h => (hs h).2)
    obtain ⟨d, hd, hd0⟩ := arith_divisor_ne_zero T in_min in_max h1 h2 hne (fun h => (hs h).1)
    have h := mapValue_eq_of_steps T in_min in_min in_max out_min out_max 0 b 0 d 0 out_min
      (by rw [sub_self]; exact arith_zero _) hb (by rw [zero_mul]; exact arith_zero _) hd hd0
      (by rw [Int.zero_tdiv]; exact arith_zero _)
      (by rw [zero_add]; exact arith_of_inRange _ _ (inRange_promote T _ h3))
    rw [h, wrap_of_inRange T out_min h3]
  · intro hd he hm
    have hd0 : in_max - in_min ≠ 0 := fun h => hne (by omega)
    have h := mapValue_eq_of_steps T in_max in_min in_max out_min out_max
      (in_max - in_min) (out_max - out_min) ((in_max - in_min) * (out_max - out_min))
      (in_max - in_min) (out_max - out_min) out_max
      (arith_of_inRange _ _ hd) (arith_of_inRange _ _ he) (arith_of_inRange _ _ hm)
      (arith_of_inRange _ _ hd) hd0
      (by rw [Int.mul_tdiv_cancel_left _ hd0]; exact arith_of_inRange _ _ he)
      (by rw [sub_add_cancel]; exact arith_of_inRange _ _ (inRange_promote T _ h4))
    rw [h, wrap_of_inRange T out_max h4]

/-- C10, amended, on `int32_t`: remapping `[0, 10]` to `[0, 100]` sends 0 to 0
and 10 to 100. -/
theorem C10_mapValue_endpoints_witness :
    IntType.int32_t.inRange 0 ∧ IntType.int32_t.inRange 10 ∧ IntType.int32_t.inRange 100 ∧
      (0 : Int) ≠ 10 ∧
      mapValue IntType.int32_t 0 0 10 0 100 = Except.ok 0 ∧
      mapValue IntType.int32_t 10 0 10 0 100 = Except.ok 100 :=
  ⟨by decide, by decide, by decide, by decide,
    (C10_mapValue_endpoints IntType.int32_t 0 10 0 100 (by decide) (by decide) (by decide)
      (by decide) (by decide)).1 (fun _ => by decide),
    (C10_mapValue_endpoints IntType.int32_t 0 10 0 100 (by decide) (by decide) (by decide)
      (by decide) (by decide)).2 (by decide) (by decide) (by decide)⟩

end espcpputils

/-! ## mapValue over the integers -/

namespace espcpputils

/-- Truncating division by a positive divisor is monotone in the dividend. -/
theorem tdiv_le_tdiv_of_pos {a b d : Int} (hd : 0 < d) (h : a ≤ b) :
    Int.tdiv a d ≤ Int.tdiv b d := by
  by_cases ha : 0 ≤ a
  · rw [Int.tdiv_eq_ediv ha (le_of_lt hd), Int.tdiv_eq_ediv (le_trans ha h) (le_of_lt hd)]
    exact Int.ediv_le_ediv hd h
  · have ha1 : 0 ≤ -a := by omega
    have e1 : Int.tdiv a d = -Int.tdiv (-a) d := by rw [Int.neg_tdiv, neg_neg]
    by_cases hb : 0 ≤ b
    · have h1 : 0 ≤ Int.tdiv (-a) d := Int.tdiv_nonneg ha1 (le_of_lt hd)
      have h2 : 0 ≤ Int.tdiv b d := Int.tdiv_nonneg hb (le_of_lt hd)
      omega
    · have hb1 : 0 ≤ -b := by omega
      have e2 : Int.tdiv b d = -Int.tdiv (-b) d := by rw [Int.neg_tdiv, neg_neg]
      have h3 : Int.tdiv (-b) d ≤ Int.tdiv (-a) d := by
        rw [Int.tdiv_eq_ediv hb1 (le_of_lt hd), Int.tdiv_eq_ediv ha1 (le_of_lt hd)]
        exact Int.ediv_le_ediv hd (by omega)
      omega

/-- Truncating division by a negative divisor is antitone in the dividend. -/
theorem tdiv_le_tdiv_of_neg {a b d : Int} (hd : d < 0) (h : a ≤ b) :
    Int.tdiv b d ≤ Int.tdiv a d := by
  have h1 := tdiv_le_tdiv_of_pos (show 0 < -d by omega) h
  rw [Int.tdiv_neg, Int.tdiv_neg] at h1
  omega

/-- The quotient of the remap lies between 0 and `e` when the offset `u` lies
between 0 and the divisor `d`. -/
theorem tdiv_mul_between {u e d : Int} (hd : 0 < d) (hu0 : 0 ≤ u) (hud : u ≤ d) :
    min 0 e ≤ Int.tdiv (u * e) d ∧ Int.tdiv (u * e) d ≤ max 0 e := by
  by_cases he : 0 ≤ e
  · have h0 : 0 ≤ u * e := Int.mul_nonneg hu0 he
    have h1 : 0 ≤ Int.tdiv (u * e) d := Int.tdiv_nonneg h0 (le_of_lt hd)
    have h2 : Int.tdiv (u * e) d ≤ e := by
      have := tdiv_le_tdiv_of_pos hd (Int.mul_le_mul_of_nonneg_right hud he)
      rwa [Int.mul_tdiv_cancel_left e (ne_of_gt hd)] at this
    rw [min_eq_left he, max_eq_right he]
    exact ⟨h1, h2⟩
  · have he1 : e ≤ 0 := by omega
    have h0 : u * e ≤ 0 := Int.mul_nonpos_of_nonneg_of_nonpos hu0 he1
    have h1 : Int.tdiv (u * e) d ≤ 0 := by
      have := tdiv_le_tdiv_of_pos hd h0
      rwa [Int.zero_tdiv] at this
    have h2 : e ≤ Int.tdiv (u * e) d := by
      have hle : d * e ≤ u * e := Int.mul_le_mul_of_nonpos_right hud he1
      have := tdiv_le_tdiv_of_pos hd hle
      rwa [Int.mul_tdiv_cancel_left e (ne_of_gt hd)] at this
    rw [min_eq_right he1, max_eq_left he1]
    exact ⟨h2, h1⟩

end espcpputils

namespace espcpputils

theorem mapValueZ_eq (x in_min in_max out_min out_max : Int) (hne : in_min ≠ in_max) :
    mapValueZ x in_min in_max out_min out_max
      = some (Int.tdiv ((x - in_min) * (out_max - out_min)) (in_max - in_min) + out_min) := by
  unfold mapValueZ
  rw [if_neg (fun h => hne (by omega))]

/-- When no operation overflows, `mapValue` has the value of the expression over
the integers. -/
theorem mapValue_eq_of_noOverflow (T : IntType) (x in_min in_max out_min out_max : Int)
    (hne : in_min ≠ in_max) (h : NoOverflow T x in_min in_max out_min out_max) :
    mapValue T x in_min in_max out_min out_max
      = Except.ok (Int.tdiv ((x - in_min) * (out_max - out_min)) (in_max - in_min) + out_min) := by
  obtain ⟨h1, h2, h3, h4, h5, h6, h7⟩ := h
  have hd0 : in_max - in_min ≠ 0 := fun e => hne (by omega)
  rw [mapValue_eq_of_steps T x in_min in_max out_min out_max _ _ _ _ _ _
    (arith_of_inRange _ _ h1) (arith_of_inRange _ _ h2) (arith_of_inRange _ _ h3)
    (arith_of_inRange _ _ h4) hd0 (arith_of_inRange _ _ h5) (arith_of_inRange _ _ h6),
    wrap_of_inRange T _ h7]

/-- Over the integers the remap is monotone in `x` when the slope is
positive. -/
theorem remap_le_of_slope_pos (x1 x2 in_min in_max out_min out_max : Int)
    (hs : 0 < (out_max - out_min) * (in_max - in_min)) (hx : x1 ≤ x2) :
    Int.tdiv ((x1 - in_min) * (out_max - out_min)) (in_max - in_min) + out_min
      ≤ Int.tdiv ((x2 - in_min) * (out_max - out_min)) (in_max - in_min) + out_min := by
  have hx1 : x1 - in_min ≤ x2 - in_min := by omega
  rcases mul_pos_iff.1 hs with ⟨he, hd⟩ | ⟨he, hd⟩
  · have := tdiv_le_tdiv_of_pos hd (Int.mul_le_mul_of_nonneg_right hx1 (le_of_lt he))
    omega
  · have := tdiv_le_tdiv_of_neg hd (Int.mul_le_mul_of_nonpos_right hx1 (le_of_lt he))
    omega

/-- Over the integers the remap is antitone in `x` when the slope is
negative. -/
theorem remap_ge_of_slope_neg (x1 x2 in_min in_max out_min out_max : Int)
    (hs : (out_max - out_min) * (in_max - in_min) < 0) (hx : x1 ≤ x2) :
    Int.tdiv ((x2 - in_min) * (out_max - out_min)) (in_max - in_min) + out_min
      ≤ Int.tdiv ((x1 - in_min) * (out_max - out_min)) (in_max - in_min) + out_min := by
  have hx1 : x1 - in_min ≤ x2 - in_min := by omega
  rcases mul_neg_iff.1 hs with ⟨he, hd⟩ | ⟨he, hd⟩
  · have := tdiv_le_tdiv_of_neg hd (Int.mul_le_mul_of_nonneg_right hx1 (le_of_lt he))
    omega
  · have := tdiv_le_tdiv_of_pos hd (Int.mul_le_mul_of_nonpos_right hx1 (le_of_lt he))
    omega

/-- Over the integers the remap of an `x` between `in_min` and `in_max` lies
between `out_min` and `out_max`. -/
theorem remap_between (x in_min in_max out_min out_max : Int) (hne : in_min ≠ in_max)
    (hx : (in_min ≤ x ∧ x ≤ in_max) ∨ (in_max ≤ x ∧ x ≤ in_min)) :
    min out_min out_max
        ≤ Int.tdiv ((x - in_min) * (out_max - out_min)) (in_max - in_min) + out_min ∧
      Int.tdiv ((x - in_min) * (out_max - out_min)) (in_max - in_min) + out_min
        ≤ max out_min out_max := by
  have key : min 0 (out_max - out_min)
        ≤ Int.tdiv ((x - in_min) * (out_max - out_min)) (in_max - in_min) ∧
      Int.tdiv ((x - in_min) * (out_max - out_min)) (in_max - in_min)
        ≤ max 0 (out_max - out_min) := by
    rcases lt_or_gt_of_ne hne with hlt | hgt
    · exact tdiv_mul_between (by omega) (by omega) (by omega)
    · have h := tdiv_mul_between (u := -(x - in_min)) (e := out_max - out_min)
        (d := -(in_max - in_min)) (by omega) (by omega) (by omega)
      rwa [neg_mul, Int.neg_tdiv_neg] at h
  omega

end espcpputils

/-! ## mapValue: faults -/

namespace espcpputils

theorem arith_ne_divisionByZero (t : IntType) (n : Int) :
    arith t n ≠ Except.error Fault.divisionByZero := by
  unfold arith
  split_ifs <;> simp

/-- A divisor `in_max - in_min` that evaluates to zero comes from equal bounds. -/
theorem eq_of_arith_divisor_zero (T : IntType) (in_min in_max : Int) (h1 : T.inRange in_min)
    (h2 : T.inRange in_max) (h : arith T.promote (in_max - in_min) = Except.ok 0) :
    in_min = in_max := by
  by_contra hne
  cases hp : T.promote.isSigned
  · obtain ⟨d, hd, hd0⟩ := arith_divisor_ne_zero T in_min in_max h1 h2 hne (by simp [hp])
    rw [h] at hd
    exact hd0 (by injection hd with e; exact e.symm)
  · unfold arith at h
    rw [hp] at h
    simp only [if_true] at h
    split_ifs at h
    · injection h with e
      exact hne (by omega)

/-- The evaluation is a division-by-zero fault exactly when the first three
operations have values and the divisor evaluates to zero. -/
theorem mapValue_eq_divisionByZero_iff (T : IntType) (x in_min in_max out_min out_max : Int) :
    mapValue T x in_min in_max out_min out_max = Except.error Fault.divisionByZero ↔
      ∃ a b m, arith T.promote (x - in_min) = Except.ok a ∧
        arith T.promote (out_max - out_min) = Except.ok b ∧
        arith T.promote (a * b) = Except.ok m ∧
        arith T.promote (in_max - in_min) = Except.ok 0 := by
  unfold mapValue
  cases ha : arith T.promote (x - in_min) with
  | error e =>
    have := arith_ne_divisionByZero T.promote (x - in_min)
    rw [ha] at this
    simp [bind, Except.bind]
    intro h; exact this (by rw [h])
  | ok a =>
    cases hb : arith T.promote (out_max - out_min) with
    | error e =>
      have := arith_ne_divisionByZero T.promote (out_max - out_min)
      rw [hb] at this
      simp [bind, Except.bind]
      intro h; exact this (by rw [h])
    | ok b =>
      cases hm : arith T.promote (a * b) with
      | error e =>
        have := arith_ne_divisionByZero T.promote (a * b)
        rw [hm] at this
        simp [bind, Except.bind, hm]
        intro h; exact this (by rw [h])
      | ok m =>
        cases hd : arith T.promote (in_max - in_min) with
        | error e =>
          have := arith_ne_divisionByZero T.promote (in_max - in_min)
          rw [hd] at this
          simp [bind, Except.bind, hm]
          intro h; exact this (by rw [h])
        | ok d =>
          by_cases hd0 : d = 0
          · subst hd0
            simp [bind, Except.bind, hm, throw, throwThe, MonadExceptOf.throw]
          · cases hq : arith T.promote (Int.tdiv m d) with
            | error e =>
              have := arith_ne_divisionByZero T.promote (Int.tdiv m d)
              rw [hq] at this
              simp [bind, Except.bind, hm, hd0, hq, pure, Except.pure]
              intro h; exact this (by rw [h])
            | ok q =>
              cases hr : arith T.promote (q + out_min) with
              | error e =>
                have := arith_ne_divisionByZero T.promote (q + out_min)
                rw [hr] at this
                simp [bind, Except.bind, hm, hd0, hq, hr, pure, Except.pure]
                intro h; exact this (by rw [h])
              | ok r =>
                simp [bind, Except.bind, hm, hd0, hq, hr, pure, Except.pure]

end espcpputils

namespace espcpputils

theorem arith_error_eq (t : IntType) (n : Int) (e : Fault) (h : arith t n = Except.error e) :
    e = Fault.signedOverflow := by
  unfold arith at h
  split_ifs at h
  · injection h with h1
    exact h1.symm

theorem arith_unsigned (t : IntType) (n : Int) (h : t.isSigned = false) :
    arith t n = Except.ok (t.wrap n) := by
  simp [arith, h]

/-- With a divisor that evaluates to zero the evaluation has no value. -/
theorem mapValue_of_divisor_zero (T : IntType) (x in_min in_max out_min out_max : Int)
    (hd : arith T.promote (in_max - in_min) = Except.ok 0) :
    mapValue T x in_min in_max out_min out_max = Except.error Fault.divisionByZero ∨
      mapValue T x in_min in_max out_min out_max = Except.error Fault.signedOverflow := by
  unfold mapValue
  cases ha : arith T.promote (x - in_min) with
  | error e =>
    have he := arith_error_eq _ _ e ha
    subst he
    simp [bind, Except.bind]
  | ok a =>
    cases hb : arith T.promote (out_max - out_min) with
    | error e =>
      have he := arith_error_eq _ _ e hb
      subst he
      simp [bind, Except.bind]
    | ok b =>
      cases hm : arith T.promote (a * b) with
      | error e =>
        have he := arith_error_eq _ _ e hm
        subst he
        simp [bind, Except.bind, hm]
      | ok m =>
        simp [bind, Except.bind, hm, hd, throw, throwThe, MonadExceptOf.throw]

/-- In unsigned arithmetic the evaluation has a value for distinct bounds. -/
theorem mapValue_unsigned_defined (T : IntType) (x in_min in_max out_min out_max : Int)
    (h1 : T.inRange in_min) (h2 : T.inRange in_max) (hne : in_min ≠ in_max)
    (hu : T.promote.isSigned = false) :
    ∃ r, mapValue T x in_min in_max out_min out_max = Except.ok r := by
  obtain ⟨d, hd, hd0⟩ := arith_divisor_ne_zero T in_min in_max h1 h2 hne (by simp [hu])
  exact ⟨_, mapValue_eq_of_steps T x in_min in_max out_min out_max _ _ _ d _ _
    (arith_unsigned _ _ hu) (arith_unsigned _ _ hu) (arith_unsigned _ _ hu) hd hd0
    (arith_unsigned _ _ hu) (arith_unsigned _ _ hu)⟩

end espcpputils

/-! ## mapValue: stated properties -/

namespace espcpputils

/-- C11 as stated fails: in `uint32_t` arithmetic, remapping `[0, 65536]` to
`[0, 65536]` (slope 1, positive), `mapValue(65535, ...)` is 65535 but
`mapValue(65536, ...)` is 0, because the product `65536 * 65536` wraps to 0:
the larger `x` has the smaller result. -/
theorem C11_not_monotone_when_product_wraps :
    IntType.uint32_t.inRange 65535 ∧ IntType.uint32_t.inRange 65536 ∧
      IntType.uint32_t.inRange 0 ∧ (0 : Int) ≠ 65536 ∧ (65535 : Int) ≤ 65536 ∧
      (0 : Int) < (65536 - 0) * (65536 - 0) ∧
      mapValue IntType.uint32_t 65535 0 65536 0 65536 = Except.ok 65535 ∧
      mapValue IntType.uint32_t 65536 0 65536 0 65536 = Except.ok 0 ∧
      ¬ ((65535 : Int) ≤ 0) := by
  decide

/-- C11, amended: for `inMin != inMax` and `x1 <= x2`, whenever no operation of
the expression overflows or wraps for `x1` and for `x2`, both evaluations have
the value the expression has over the integers with truncating division, and
`mapValue(x1, ...) <= mapValue(x2, ...)` when the slope
`(outMax - outMin)/(inMax - inMin)` is positive, `>=` when it is negative. -/
theorem C11_mapValue_monotone (T : IntType) (x1 x2 in_min in_max out_min out_max : Int)
    (hne : in_min ≠ in_max) (hx : x1 ≤ x2)
    (h1 : NoOverflow T x1 in_min in_max out_min out_max)
    (h2 : NoOverflow T x2 in_min in_max out_min out_max) :
    ∃ r1 r2 : Int,
      mapValue T x1 in_min in_max out_min out_max = Except.ok r1 ∧
      mapValue T x2 in_min in_max out_min out_max = Except.ok r2 ∧
      mapValueZ x1 in_min in_max out_min out_max = some r1 ∧
      mapValueZ x2 in_min in_max out_min out_max = some r2 ∧
      (0 < (out_max - out_min) * (in_max - in_min) → r1 ≤ r2) ∧
      ((out_max - out_min) * (in_max - in_min) < 0 → r2 ≤ r1) :=
  ⟨_, _, mapValue_eq_of_noOverflow T x1 in_min in_max out_min out_max hne h1,
    mapValue_eq_of_noOverflow T x2 in_min in_max out_min out_max hne h2,
    mapValueZ_eq x1 in_min in_max out_min out_max hne,
    mapValueZ_eq x2 in_min in_max out_min out_max hne,
    fun hs => remap_le_of_slope_pos x1 x2 in_min in_max out_min out_max hs hx,
    fun hs => remap_ge_of_slope_neg x1 x2 in_min in_max out_min out_max hs hx⟩

/-- C11, amended, on `int32_t`: remapping `[0, 10]` to `[0, 100]`, the inputs
`2 <= 7` have results in the same order. -/
theorem C11_mapValue_monotone_witness :
    (0 : Int) ≠ 10 ∧ (2 : Int) ≤ 7 ∧ NoOverflow IntType.int32_t 2 0 10 0 100 ∧
      NoOverflow IntType.int32_t 7 0 10 0 100 ∧
      ∃ r1 r2 : Int,
        mapValue IntType.int32_t 2 0 10 0 100 = Except.ok r1 ∧
        mapValue IntType.int32_t 7 0 10 0 100 = Except.ok r2 ∧
        mapValueZ 2 0 10 0 100 = some r1 ∧
        mapValueZ 7 0 10 0 100 = some r2 ∧
        ((0 : Int) < (100 - 0) * (10 - 0) → r1 ≤ r2) ∧
        ((100 - 0) * (10 - 0) < (0 : Int) → r2 ≤ r1) :=
  ⟨by decide, by decide, by decide, by decide,
    C11_mapValue_monotone IntType.int32_t 2 7 0 10 0 100 (by decide) (by decide) (by decide)
      (by decide)⟩

/-- C13 as stated fails: in `int32_t` arithmetic with `inMin = 0`, `inMax = -1`
(distinct), `x = 1`, `outMin = 0`, `outMax = -2147483648` the division is
`-2147483648 / -1`, which overflows: there is no result although
`inMin != inMax`; likewise `mapValue(65536, 0, 65536, 0, 65536)` has no defined
result because the product overflows. -/
theorem C13_no_result_with_distinct_bounds :
    IntType.int32_t.inRange 1 ∧ IntType.int32_t.inRange 0 ∧ IntType.int32_t.inRange (-1) ∧
      IntType.int32_t.inRange (-2147483648) ∧ (0 : Int) ≠ -1 ∧
      mapValue IntType.int32_t 1 0 (-1) 0 (-2147483648)
        = Except.error Fault.signedOverflow ∧
      IntType.int32_t.inRange 65536 ∧ (0 : Int) ≠ 65536 ∧
      mapValue IntType.int32_t 65536 0 65536 0 65536 = Except.error Fault.signedOverflow := by
  decide

/-- C13, amended: over an integer type with in-range bounds, (1) a
division-by-zero fault occurs only if `inMin = inMax`; (2) with `inMin = inMax`
there is never a result, and (3) the fault is the division by zero whenever the
two subtractions and the multiplication before the division do not overflow a
signed type; (4) with `inMin != inMax` unsigned arithmetic always returns a
value; (5) with `inMin != inMax`, whenever no operation overflows, the result is
`(x - inMin) * (outMax - outMin) / (inMax - inMin) + outMin`. -/
theorem C13_mapValue_faults (T : IntType) (x in_min in_max out_min out_max : Int)
    (h1 : T.inRange in_min) (h2 : T.inRange in_max) :
    (mapValue T x in_min in_max out_min out_max = Except.error Fault.divisionByZero →
        in_min = in_max) ∧
      (in_min = in_max → ∀ r, mapValue T x in_min in_max out_min out_max ≠ Except.ok r) ∧
      (in_min = in_max →
        (T.promote.isSigned = true →
          T.promote.inRange (x - in_min) ∧ T.promote.inRange (out_max - out_min) ∧
            T.promote.inRange ((x - in_min) * (out_max - out_min))) →
        mapValue T x in_min in_max out_min out_max = Except.error Fault.divisionByZero) ∧
      (in_min ≠ in_max → T.promote.isSigned = false →
        ∃ r, mapValue T x in_min in_max out_min out_max = Except.ok r) ∧
      (in_min ≠ in_max → NoOverflow T x in_min in_max out_min out_max →
        mapValue T x in_min in_max out_min out_max
          = Except.ok
              (Int.tdiv ((x - in_min) * (out_max - out_min)) (in_max - in_min) + out_min)) := by
  refine ⟨?_, ?_, ?_, ?_, ?_⟩
  · intro h
    obtain ⟨_, _, _, _, _, _, hd⟩ := (mapValue_eq_divisionByZero_iff T x in_min in_max out_min
      out_max).1 h
    exact eq_of_arith_divisor_zero T in_min in_max h1 h2 hd
  · intro he r hr
    have hd : arith T.promote (in_max - in_min) = Except.ok 0 := by
      rw [he, sub_self]; exact arith_zero _
    rcases mapValue_of_divisor_zero T x in_min in_max out_min out_max hd with h | h <;>
      rw [h] at hr <;> exact Except.noConfusion hr
  · intro he hs
    have hd : arith T.promote (in_max - in_min) = Except.ok 0 := by
      rw [he, sub_self]; exact arith_zero _
    rw [mapValue_eq_divisionByZero_iff]
    cases hp : T.promote.isSigned
    · exact ⟨_, _, _, arith_unsigned _ _ hp, arith_unsigned _ _ hp, arith_unsigned _ _ hp, hd⟩
    · obtain ⟨ha, hb, hm⟩ := hs hp
      exact ⟨_, _, _, arith_of_inRange _ _ ha, arith_of_inRange _ _ hb,
        arith_of_inRange _ _ hm, hd⟩
  · intro hne hu
    exact mapValue_unsigned_defined T x in_min in_max out_min out_max h1 h2 hne hu
  · intro hne hno
    exact mapValue_eq_of_noOverflow T x in_min in_max out_min out_max hne hno

/-- C13, amended, on `int32_t`: `mapValue(5, 3, 3, 0, 100)` is the
division-by-zero fault, and `mapValue(5, 0, 10, 0, 100)` is 50. -/
theorem C13_mapValue_faults_witness :
    IntType.int32_t.inRange 3 ∧ IntType.int32_t.inRange 0 ∧ IntType.int32_t.inRange 10 ∧
      mapValue IntType.int32_t 5 3 3 0 100 = Except.error Fault.divisionByZero ∧
      mapValue IntType.int32_t 5 0 10 0 100 = Except.ok 50 :=
  ⟨by decide, by decide, by decide,
    (C13_mapValue_faults IntType.int32_t 5 3 3 0 100 (by decide) (by decide)).2.2.1 rfl
      (fun _ => by decide),
    (C13_mapValue_faults IntType.int32_t 5 0 10 0 100 (by decide) (by decide)).2.2.2.2
      (by decide) (by decide)⟩

/-- C16: over the integers with truncating division and no overflow, for
`inMin != inMax` and `x` between `inMin` and `inMax` inclusive, in either
orientation, `mapValue` has a value and it lies between `outMin` and `outMax`
inclusive; it is the value of the machine evaluation for every integer type in
which no operation overflows. -/
theorem C16_mapValue_in_output_range (x in_min in_max out_min out_max : Int)
    (hne : in_min ≠ in_max)
    (hx : (in_min ≤ x ∧ x ≤ in_max) ∨ (in_max ≤ x ∧ x ≤ in_min)) :
    ∃ r : Int,
      mapValueZ x in_min in_max out_min out_max = some r ∧
      min out_min out_max ≤ r ∧ r ≤ max out_min out_max ∧
      ∀ T : IntType, NoOverflow T x in_min in_max out_min out_max →
        mapValue T x in_min in_max out_min out_max = Except.ok r :=
  ⟨_, mapValueZ_eq x in_min in_max out_min out_max hne,
    (remap_between x in_min in_max out_min out_max hne hx).1,
    (remap_between x in_min in_max out_min out_max hne hx).2,
    fun T h => mapValue_eq_of_noOverflow T x in_min in_max out_min out_max hne h⟩

/-- C16 with a reversed input range: remapping `[10, 0]` to `[0, 100]`, the input
3 has a result between 0 and 100. -/
theorem C16_mapValue_in_output_range_witness :
    (10 : Int) ≠ 0 ∧ (((10 : Int) ≤ 3 ∧ (3 : Int) ≤ 0) ∨ ((0 : Int) ≤ 3 ∧ (3 : Int) ≤ 10)) ∧
      ∃ r : Int,
        mapValueZ 3 10 0 0 100 = some r ∧
        min 0 100 ≤ r ∧ r ≤ max 0 100 ∧
        ∀ T : IntType, NoOverflow T 3 10 0 0 100 →
          mapValue T 3 10 0 0 100 = Except.ok r :=
  ⟨by decide, by decide,
    C16_mapValue_in_output_range 3 10 0 0 100 (by decide) (by decide)⟩

end espcpputils

/-! ## clamp: further properties -/

namespace espcpputils

theorem clamp_of_between {T : Type} [LinearOrder T] (v lo hi : T) (h1 : lo ≤ v) (h2 : v ≤ hi) :
    clamp v lo hi = v := by
  unfold clamp
  rw [if_neg (not_lt.2 h1), if_neg (not_lt.2 h2)]

theorem clamp_between {T : Type} [LinearOrder T] (v lo hi : T) (h : lo ≤ hi) :
    lo ≤ clamp v lo hi ∧ clamp v lo hi ≤ hi := by
  unfold clamp
  split_ifs with h1 h2
  · exact ⟨le_refl lo, h⟩
  · exact ⟨h, le_refl hi⟩
  · exact ⟨not_lt.1 h1, not_lt.1 h2⟩

/-- C12: clamp is the three-way choice for every input, also when `lo > hi`:
`lo` if `v < lo`, otherwise `hi` if `v > hi`, otherwise `v`; the result is
always one of `v`, `lo`, `hi`; and when `lo > hi` and both `v < lo` and `v > hi`
hold, the result is `lo`. -/
theorem C12_clamp_three_way {T : Type} [LT T] [DecidableRel (fun a b : T => a < b)]
    (v lo hi : T) :
    (v < lo → clamp v lo hi = lo) ∧
      (¬ v < lo → v > hi → clamp v lo hi = hi) ∧
      (¬ v < lo → ¬ v > hi → clamp v lo hi = v) ∧
      (clamp v lo hi = v ∨ clamp v lo hi = lo ∨ clamp v lo hi = hi) ∧
      (lo > hi → v < lo → v > hi → clamp v lo hi = lo) := by
  unfold clamp
  refine ⟨fun h => if_pos h, fun h1 h2 => ?_, fun h1 h2 => ?_, ?_, fun _ h _ => if_pos h⟩
  · rw [if_neg h1, if_pos h2]
  · rw [if_neg h1, if_neg h2]
  · split_ifs
    · exact Or.inr (Or.inl rfl)
    · exact Or.inr (Or.inr rfl)
    · exact Or.inl rfl

/-- C12 with the bounds reversed: `clamp(5, 10, 0)` has `5 < 10` and `5 > 0`, and
the result is the lower bound 10. -/
theorem C12_clamp_three_way_witness :
    (10 : Int) > 0 ∧ (5 : Int) < 10 ∧ (5 : Int) > 0 ∧ clamp (5 : Int) 10 0 = 10 :=
  ⟨by decide, by decide, by decide,
    (C12_clamp_three_way (5 : Int) 10 0).2.2.2.2 (by decide) (by decide) (by decide)⟩

/-- C18: under `lo <= hi`, clamp is idempotent,
`clamp(clamp(v, lo, hi), lo, hi) = clamp(v, lo, hi)`, and monotone: `v1 <= v2`
gives `clamp(v1, lo, hi) <= clamp(v2, lo, hi)`. -/
theorem C18_clamp_idempotent_monotone {T : Type} [LinearOrder T] (lo hi : T) (h : lo ≤ hi) :
    (∀ v : T, clamp (clamp v lo hi) lo hi = clamp v lo hi) ∧
      (∀ v1 v2 : T, v1 ≤ v2 → clamp v1 lo hi ≤ clamp v2 lo hi) := by
  constructor
  · intro v
    exact clamp_of_between _ lo hi (clamp_between v lo hi h).1 (clamp_between v lo hi h).2
  · intro v1 v2 hv
    unfold clamp
    by_cases a1 : v1 < lo
    · rw [if_pos a1]
      by_cases a2 : v2 < lo
      · rw [if_pos a2]
      · rw [if_neg a2]
        by_cases a3 : hi < v2
        · rw [if_pos a3]; exact h
        · rw [if_neg a3]; exact not_lt.1 a2
    · rw [if_neg a1]
      have a2 : ¬ v2 < lo := fun c => a1 (lt_of_le_of_lt hv c)
      rw [if_neg a2]
      by_cases a3 : hi < v1
      · rw [if_pos a3, if_pos (lt_of_lt_of_le a3 hv)]
      · rw [if_neg a3]
        by_cases a4 : hi < v2
        · rw [if_pos a4]; exact not_lt.1 a3
        · rw [if_neg a4]; exact hv

/-- C18 on the integers with the bounds 0 and 3: `clamp(clamp(5)) = clamp(5)`
and `clamp(-2) <= clamp(5)`. -/
theorem C18_clamp_idempotent_monotone_witness :
    (0 : Int) ≤ 3 ∧ clamp (clamp (5 : Int) 0 3) 0 3 = clamp (5 : Int) 0 3 ∧
      clamp (-2 : Int) 0 3 ≤ clamp (5 : Int) 0 3 :=
  ⟨by decide, (C18_clamp_idempotent_monotone (0 : Int) 3 (by decide)).1 5,
    (C18_clamp_idempotent_monotone (0 : Int) 3 (by decide)).2 (-2) 5 (by decide)⟩

end espcpputils

/-! ## The generated reflection functions: further properties -/

namespace TypesafeEnum

/-- Parsing never succeeds on a fallback text: the texts compared with are
identifiers, and a fallback text contains a space. -/
theorem parseName_fallbackText (d : EnumDefinition) (hd : WellFormed d) (n : Int) :
    parseName d (fallbackText d n) = none := by
  rw [parseName_eq_none_iff]
  intro s hs e
  exact ne_fallbackText_of_isIdentifier d (d.expand s) (hd.1 s hs).2 n e.symm

/-- Reverse round trip when no symbol of the list names a preprocessor definition:
a present result of `parse(text)` stringifies to `text`. -/
theorem toString_of_parseName_of_not_replaced (d : EnumDefinition) (hd : WellFormed d)
    (hid : ∀ s ∈ d.Values, d.expand s = s) (text : String) (v : Int)
    (h : parseName d text = some v) : toString d v = text := by
  rw [parseName_eq] at h
  by_cases hmem : text ∈ enumerators d
  · rw [if_pos hmem] at h
    injection h with hv
    obtain ⟨s, hs, e⟩ := List.mem_map.1 hmem
    have hst : s = text := by rw [← e, hid s hs]
    subst hst
    have hval : valueOf d s = v := by
      unfold valueOf
      rw [hid s hs]
      exact hv
    rw [← hval]
    exact toString_of_mem d hd.2.1 hs
  · rw [if_neg hmem] at h
    exact Option.noConfusion h

/-- C14: for an enumeration generated from a list with zero symbols,
`toString(value)` is the fallback text `Unknown Name(n)` for every value, `n`
being the decimal representation of `int(value)` (of the underlying integer
itself when it is representable in `int`), and `parse(text)` is absent for every
text. -/
theorem C14_empty_definition (d : EnumDefinition) (h : d.Values = []) :
    (∀ value : Int,
        toString d value
          = "Unknown " ++ d.Name ++ "(" ++ Int.repr (IntType.int.wrap value) ++ ")") ∧
      (∀ value : Int, IntType.int.inRange value →
        toString d value = "Unknown " ++ d.Name ++ "(" ++ Int.repr value ++ ")") ∧
      (∀ text : String, parseName d text = none) := by
  have hfall : ∀ value : Int, toString d value = fallbackText d (IntType.int.wrap value) :=
    fun value => toString_of_not_label d value (by rw [h]; simp)
  refine ⟨fun value => ?_, fun value hr => ?_, fun text => ?_⟩
  · rw [hfall]; rfl
  · rw [hfall, wrap_int_of_inRange value hr]; rfl
  · rw [parseName_eq_none_iff, h]
    simp

/-- C14 on the declaration `enum class Nothing : uint8_t {}`: `toString` of the
value 7 is `Unknown Nothing(7)` and `parseNothing` of `Red` is absent. -/
theorem C14_empty_definition_witness :
    NoSymbols.Values = [] ∧ toString NoSymbols 7 = "Unknown Nothing(7)" ∧
      parseName NoSymbols "Red" = none :=
  ⟨rfl, (C14_empty_definition NoSymbols rfl).2.1 7 (by decide),
    (C14_empty_definition NoSymbols rfl).2.2 "Red"⟩

/-- C15, evaluated where it fails: with `#define Foo Bar` in scope and the
symbol list `Foo, Baz`, `parseE` of the text `Bar` is the present result 0, and
`toString` of that value is `Foo`, not `Bar`. -/
theorem C15_parsed_value_stringifies_to_other_text :
    WellFormed Aliased ∧ parseName Aliased "Bar" = some 0 ∧
      toString Aliased 0 = "Foo" ∧ toString Aliased 0 ≠ "Bar" := by
  decide

end TypesafeEnum

/-! ## Signal: the registry under `operator()` -/

namespace espcpputils

theorem reentrantFrom_nil {α σ ε : Type} (T : ArgType α) (cat : ValueCategory)
    (registry : List (ReentrantSlot α σ ε)) (i : Nat) (v : α) (w : σ) :
    reentrantFrom T cat registry [] i v w
      = { m_slots := registry, world := w, calls := [], args := v,
          ending := LoopEnd.completed } := by
  rw [reentrantFrom]

theorem reentrantFrom_cons_thrown {α σ ε : Type} (T : ArgType α) (cat : ValueCategory)
    (registry rest : List (ReentrantSlot α σ ε)) (slot : ReentrantSlot α σ ε) (i : Nat) (v : α)
    (w w1 : σ) (e : ε) (subscribed : List (ReentrantSlot α σ ε))
    (hs : slot.run (forwardArg T cat v).1 w = (w1, some e, subscribed)) :
    reentrantFrom T cat registry (slot :: rest) i v w
      = { m_slots := registry ++ subscribed, world := w1,
          calls := [(i, (forwardArg T cat v).1)], args := (forwardArg T cat v).2,
          ending := LoopEnd.thrown e } := by
  rw [reentrantFrom, hs]

theorem reentrantFrom_cons_continue {α σ ε : Type} (T : ArgType α) (cat : ValueCategory)
    (registry rest : List (ReentrantSlot α σ ε)) (slot : ReentrantSlot α σ ε) (i : Nat) (v : α)
    (w w1 : σ) (hs : slot.run (forwardArg T cat v).1 w = (w1, none, [])) :
    reentrantFrom T cat registry (slot :: rest) i v w
      = { m_slots := (reentrantFrom T cat registry rest (i + 1) (forwardArg T cat v).2 w1).m_slots,
          world := (reentrantFrom T cat registry rest (i + 1) (forwardArg T cat v).2 w1).world,
          calls := (i, (forwardArg T cat v).1) ::
            (reentrantFrom T cat registry rest (i + 1) (forwardArg T cat v).2 w1).calls,
          args := (reentrantFrom T cat registry rest (i + 1) (forwardArg T cat v).2 w1).args,
          ending := (reentrantFrom T cat registry rest (i + 1) (forwardArg T cat v).2 w1).ending } := by
  rw [reentrantFrom, hs]

/-- On slots that never subscribe the loop is the loop `dispatchFrom`: same
state, same calls, same argument state, same outcome, registry untouched. -/
theorem reentrantFrom_ofSlot {α σ ε : Type} (T : ArgType α) (cat : ValueCategory)
    (registry : List (ReentrantSlot α σ ε)) :
    ∀ (l : List (Slot α σ ε)) (i : Nat) (v : α) (w : σ),
      (reentrantFrom T cat registry (l.map ReentrantSlot.ofSlot) i v w).m_slots = registry ∧
      (reentrantFrom T cat registry (l.map ReentrantSlot.ofSlot) i v w).world
        = (dispatchFrom T cat l i v w).world ∧
      (reentrantFrom T cat registry (l.map ReentrantSlot.ofSlot) i v w).calls
        = (dispatchFrom T cat l i v w).calls ∧
      (reentrantFrom T cat registry (l.map ReentrantSlot.ofSlot) i v w).args
        = (dispatchFrom T cat l i v w).args ∧
      (reentrantFrom T cat registry (l.map ReentrantSlot.ofSlot) i v w).ending
        = (match (dispatchFrom T cat l i v w).thrown with
          | none => LoopEnd.completed
          | some e => LoopEnd.thrown e)
  | [], i, v, w => by
    rw [List.map_nil, reentrantFrom_nil, dispatchFrom_nil]
    exact ⟨rfl, rfl, rfl, rfl, rfl⟩
  | slot :: rest, i, v, w => by
    rcases hs : slot (forwardArg T cat v).1 w with ⟨w1, _ | e⟩
    · have hr : (ReentrantSlot.ofSlot slot).run (forwardArg T cat v).1 w = (w1, none, []) := by
        simp [ReentrantSlot.ofSlot, ReentrantSlot.run, hs]
      have ih := reentrantFrom_ofSlot T cat registry rest (i + 1) (forwardArg T cat v).2 w1
      rw [List.map_cons, reentrantFrom_cons_continue T cat registry _ _ i v w w1 hr,
        dispatchFrom_cons_ok T cat slot rest i v w w1 hs]
      exact ⟨ih.1, ih.2.1, by simp only [ih.2.2.1], ih.2.2.2.1, ih.2.2.2.2⟩
    · have hr : (ReentrantSlot.ofSlot slot).run (forwardArg T cat v).1 w = (w1, some e, []) := by
        simp [ReentrantSlot.ofSlot, ReentrantSlot.run, hs]
      rw [List.map_cons, reentrantFrom_cons_thrown T cat registry _ _ i v w w1 e [] hr,
        dispatchFrom_cons_fail T cat slot rest i v w w1 e hs]
      exact ⟨by simp, rfl, rfl, rfl, rfl⟩

end espcpputils

namespace espcpputils

end espcpputils
